import Mathlib

/-!
Shallow embedding of the DD-UI backend core (Rust sources under `src/`):
the inventory discovery engine (`src/api/inventory.rs`), the streaming run
reporter (`src/api/ci_run.rs`), the entitlement loader (`src/entitlements.rs`)
and the configuration record (`src/config.rs`).

Filesystem access is modelled by an explicit tree (`FsNode`): each directory
node carries a `readable` flag (whether `fs::read_dir` on it succeeds) and the
fallible Rust handlers become total Lean functions on that tree.  Machine
strings are Lean `String`s; `str::to_lowercase` is modelled character-wise by
`Char.toLower` (the filenames of interest are ASCII).
-/

set_option linter.unusedVariables false

namespace DDUI

/-! ### Character-list string primitives

`str::starts_with`, `str::ends_with` and `str::contains` from the Rust
standard library, modelled on `List Char`. -/

def charsStartsWith : List Char → List Char → Bool
  | [], _ => true
  | _ :: _, [] => false
  | p :: ps, c :: cs => p == c && charsStartsWith ps cs

def charsContains (pat : List Char) : List Char → Bool
  | [] => charsStartsWith pat []
  | c :: cs => charsStartsWith pat (c :: cs) || charsContains pat cs

def charsEndsWith (pat s : List Char) : Bool :=
  charsStartsWith pat.reverse s.reverse

/-- `name.to_lowercase()` on the characters of a string (ASCII model). -/
def lowerChars (s : String) : List Char := s.data.map Char.toLower

/-! ### Filesystem model

A node of the filesystem: a regular file, or a directory with a list of
named children.  `readable` records whether `fs::read_dir` on the directory
succeeds; `Path::exists` on a child name is a plain lookup in `entries`
(a stat is not gated by the parent's read permission). -/

inductive FsNode where
  | file
  | dir (readable : Bool) (entries : List (String × FsNode))

/-- `metadata().is_file()` for an entry of the model. -/
def isFile : FsNode → Bool
  | .file => true
  | .dir _ _ => false

/-- `Path::exists` for the child `name` of a directory with children
`entries`. -/
def entryExists (entries : List (String × FsNode)) (name : String) : Bool :=
  entries.any (fun p => p.1 == name)

/-! ### Data model of `src/api/inventory.rs` -/

structure Container where
  name : String
  image : String
  state : String
deriving DecidableEq, Repr

structure Stack where
  name : String
  type : String
  path : String
  sops : Bool
  containers : List Container
deriving DecidableEq, Repr

structure Host where
  host : String
  groups : List String
  «stacks» : List Stack
deriving DecidableEq, Repr

structure Inventory where
  hosts : List Host
deriving DecidableEq, Repr

/-! ### Configuration (`src/config.rs`) -/

structure AppConfig where
  bind_addr : String
  scan_kind : String
  scan_root : String
  refresh_interval : String
  license_env : String
  license_path : String
deriving DecidableEq, Repr

/-- `AppConfig::from_env`: each argument is the value of the corresponding
environment variable, `none` when unset. -/
def AppConfig.from_env (bind scanKind scanRoot refresh licEnv licPath : Option String) :
    Except String AppConfig :=
  let bind_addr := bind.getD "0.0.0.0:3000"
  let scan_kind := scanKind.getD "local"
  let scan_root := scanRoot.getD "/opt/docker/ant-parade/docker-compose"
  let refresh_interval := refresh.getD "10m"
  let license_env := licEnv.getD "DDUI_LICENSE"
  let license_path := licPath.getD "/run/secrets/ddui_license"
  if scan_kind ≠ "local" ∧ scan_kind ≠ "repo" then
    .error "DDUI_SCAN_KIND must be \x27local\x27 or \x27repo\x27"
  else
    .ok { bind_addr, scan_kind, scan_root, refresh_interval, license_env, license_path }

/-! ### Inventory discovery (`get_inventory` and `glob_has_sops`) -/

/-- The filename test inside `glob_has_sops`:
`name.ends_with(".env.sops") || name.contains(".sops.")` on the lower-cased
name. -/
def sopsFileName (name : String) : Bool :=
  charsEndsWith ".env.sops".data (lowerChars name) ||
    charsContains ".sops.".data (lowerChars name)

/-- The entry loop of `glob_has_sops`: returns on the first regular file whose
lower-cased name matches the secret-name convention. -/
def sopsScan : List (String × FsNode) → Bool
  | [] => false
  | (name, node) :: rest =>
      if isFile node && sopsFileName name then true else sopsScan rest

/-- `glob_has_sops(dir)`: `false` when `fs::read_dir` fails (non-directory or
unreadable directory), otherwise the shallow scan of the entries. -/
def glob_has_sops : FsNode → Bool
  | .file => false
  | .dir false _ => false
  | .dir true entries => sopsScan entries

/-- Body of the per-stack iteration of `get_inventory`: `none` when the entry
is not a directory (the `continue`), otherwise the constructed `Stack`. -/
def processStack (hostPath : String) (name : String) : FsNode → Option Stack
  | .file => none
  | .dir r entries =>
      some { name := name
           , type :=
               if entryExists entries "docker-compose.yaml" ||
                  entryExists entries "docker-compose.tpl.yaml"
               then "compose" else "script"
           , path := hostPath ++ "/" ++ name
           , sops := glob_has_sops (.dir r entries)
           , containers := [] }

/-- Body of the per-host iteration of `get_inventory`: `none` when the entry
is not a directory; a failing `read_dir` on the host directory leaves `stacks`
empty but still pushes the host. -/
def processHost (rootPath : String) (name : String) : FsNode → Option Host
  | .file => none
  | .dir r entries =>
      some { host := name
           , groups := []
           , «stacks» :=
               if r then
                 entries.filterMap
                   (fun p => processStack (rootPath ++ "/" ++ name) p.1 p.2)
               else [] }

/-- `get_inventory`: `root` is the node found at `cfg.scan_root`, `none` when
the path does not exist.  A missing, non-directory or unreadable scan root
yields the empty inventory; the handler is total (it cannot fail). -/
def get_inventory (cfg : AppConfig) (root : Option FsNode) : Inventory :=
  match root with
  | none => { hosts := [] }
  | some .file => { hosts := [] }
  | some (.dir false _) => { hosts := [] }
  | some (.dir true entries) =>
      { hosts := entries.filterMap (fun p => processHost cfg.scan_root p.1 p.2) }

/-! ### Entitlements (`src/entitlements.rs`) -/

structure Features where
  ci_api : Bool
  wizards : Bool
  history_days : Nat
deriving DecidableEq, Repr

structure Entitlements where
  edition : String
  max_hosts : Option Nat
  demo_stacks : Option Nat
  features : Features
  org : Option String
deriving DecidableEq, Repr

/-- `impl Default for Entitlements`. -/
def Entitlements.default : Entitlements :=
  { edition := "Community"
  , max_hosts := some 15
  , demo_stacks := some 3
  , features := { ci_api := true, wizards := true, history_days := 30 }
  , org := none }

/-- The file half of `Entitlements::load`: `fileContents` is the result of
`fs::read_to_string` on the license path (`none` on failure), `parseEnt`
models `serde_json::from_str::<Entitlements>` (`none` on parse failure). -/
def Entitlements.loadFile (parseEnt : String → Option Entitlements)
    (fileContents : Option String) : Entitlements :=
  match fileContents with
  | some buf =>
      match parseEnt buf with
      | some e => e
      | none => Entitlements.default
  | none => Entitlements.default

/-- `Entitlements::load`: `envVal` is the value of the `DDUI_LICENSE`
environment variable (`none` when unset).  Every path returns `Ok`. -/
def Entitlements.load (parseEnt : String → Option Entitlements)
    (envVal : Option String) (fileContents : Option String) :
    Except String Entitlements :=
  match envVal with
  | some json =>
      match parseEnt json with
      | some e => .ok e
      | none => .ok (Entitlements.loadFile parseEnt fileContents)
  | none => .ok (Entitlements.loadFile parseEnt fileContents)

/-! ### JSON values and serialization (`serde_json`)

`serde_json::Value` restricted to the shapes `ci_run` builds; objects keep
their fields in the order the `json!` literals write them.  The mutual
association-list shape keeps all recursion structural. -/

mutual
inductive Json where
  | str (s : String)
  | nat (n : Nat)
  | obj (fields : JFields)
deriving Repr
inductive JFields where
  | nil
  | cons (key : String) (value : Json) (rest : JFields)
deriving Repr
end

/-- Hex digit of `serde_json`'s `\u00XX` control-character escapes. -/
def toHexDigit (n : Nat) : Char :=
  if n < 10 then Char.ofNat (n + 48) else Char.ofNat (n + 87)

/-- `serde_json`'s escaping of one character inside a JSON string literal. -/
def escChar (c : Char) : List Char :=
  if c = '"' then ['\\', '"']
  else if c = '\\' then ['\\', '\\']
  else if c = '\x08' then ['\\', 'b']
  else if c = '\x0c' then ['\\', 'f']
  else if c = '\n' then ['\\', 'n']
  else if c = '\r' then ['\\', 'r']
  else if c = '\t' then ['\\', 't']
  else if c.toNat < 32 then
    ['\\', 'u', '0', '0', toHexDigit (c.toNat / 16), toHexDigit (c.toNat % 16)]
  else [c]

def escapeChars (s : String) : List Char := (s.data.map escChar).flatten

mutual
/-- `serde_json::to_string` (compact form) on the model. -/
def renderJson : Json → List Char
  | .str s => '"' :: escapeChars s ++ ['"']
  | .nat n => (Nat.repr n).data
  | .obj fields => '\x7b' :: renderFields fields ++ ['\x7d']

def renderFields : JFields → List Char
  | .nil => []
  | .cons k v .nil => ('"' :: escapeChars k ++ ['"', ':']) ++ renderJson v
  | .cons k v (.cons k2 v2 rest) =>
      ('"' :: escapeChars k ++ ['"', ':']) ++ renderJson v ++
        ',' :: renderFields (.cons k2 v2 rest)
end

/-- Field lookup in a JSON object, first binding wins. -/
def lookupField : JFields → String → Option Json
  | .nil, _ => none
  | .cons k v rest, key => if k == key then some v else lookupField rest key

/-- The `level` field of an event object. -/
def eventLevel (j : Json) : Option Json :=
  match j with
  | .obj fs => lookupField fs "level"
  | _ => none

/-- An event is terminal when its `level` field is the string `"done"`. -/
def isDone (j : Json) : Bool :=
  match eventLevel j with
  | some (.str s) => s == "done"
  | _ => false

/-- An event carries a summary when it has a `summary` field. -/
def hasSummary (j : Json) : Bool :=
  match j with
  | .obj fs => (lookupField fs "summary").isSome
  | _ => false

def removeField : JFields → String → JFields
  | .nil, _ => .nil
  | .cons k v rest, key =>
      if k == key then removeField rest key else .cons k v (removeField rest key)

/-- Erase the `ts` field of an event object (used to compare runs up to the
start timestamp). -/
def dropTs (j : Json) : Json :=
  match j with
  | .obj fs => .obj (removeField fs "ts")
  | j => j

/-! ### Streaming run reporter (`src/api/ci_run.rs`) -/

structure CiRunRequest where
  mode : String
deriving DecidableEq, Repr

/-- An HTTP response whose body is the finite list of flushed chunks, one per
event line. -/
structure HttpResponse where
  status : Nat
  contentType : String
  bodyLines : List String
deriving DecidableEq, Repr

/-- The `lines` vector of `ci_run`: the four `json!` literals, in order.
`now` is the RFC 3339 rendering of `OffsetDateTime::now_utc()`. -/
def ciRunEvents (now : String) (ents : Entitlements) : List Json :=
  [ .obj (.cons "ts" (.str now) (.cons "level" (.str "info")
      (.cons "msg" (.str "run started") (.cons "edition" (.str ents.edition) .nil))))
  , .obj (.cons "level" (.str "info") (.cons "msg" (.str "planning") .nil))
  , .obj (.cons "level" (.str "info") (.cons "msg" (.str "nothing to change") .nil))
  , .obj (.cons "level" (.str "done") (.cons "summary"
      (.obj (.cons "hosts" (.nat 0) (.cons "stacks" (.nat 0)
        (.cons "changed" (.nat 0) (.cons "failed" (.nat 0) .nil))))) .nil))
  ]

/-- `ci_run`: builds the four-event script and streams it as newline-delimited
JSON, `format!("\x7b\x7d\n", serde_json::to_string(&v))` per event.  The
config, the request body and the entitlement features are never inspected;
the 200 status is the `Response::builder()` default.  (The 200 ms `throttle`
pacing is real time and is not part of this model.) -/
def ci_run (now : String) (_cfg : AppConfig) (ents : Entitlements)
    (_req : CiRunRequest) : HttpResponse :=
  { status := 200
  , contentType := "application/x-ndjson"
  , bodyLines := (ciRunEvents now ents).map (fun v => String.mk (renderJson v ++ ['\n'])) }

/-- The secret-file naming convention as the specification words it: the
lower-cased filename ends with `.env.sops`, or has `.sops.` as a substring. -/
def SopsIndicator (name : String) : Prop :=
  List.IsSuffix ".env.sops".data (lowerChars name) ∨
    List.IsInfix ".sops.".data (lowerChars name)

/-- A concrete configuration used to evaluate the handlers on explicit
filesystem trees (defaults of `AppConfig::from_env` with scan root `/r`). -/
def cfg0 : AppConfig :=
  { bind_addr := "0.0.0.0:3000"
  , scan_kind := "local"
  , scan_root := "/r"
  , refresh_interval := "10m"
  , license_env := "DDUI_LICENSE"
  , license_path := "/run/secrets/ddui_license" }

/-! ### Helper lemmas -/

theorem charsStartsWith_iff (p s : List Char) : charsStartsWith p s = true ↔ p <+: s := by
  induction p generalizing s with
  | nil => simp [charsStartsWith]
  | cons a ps ih =>
    cases s with
    | nil => simp [charsStartsWith]
    | cons b t =>
      simp [charsStartsWith, List.cons_prefix_cons, Bool.and_eq_true, beq_iff_eq, ih]

theorem charsContains_iff (p s : List Char) : charsContains p s = true ↔ p <:+: s := by
  induction s with
  | nil => simp [charsContains, charsStartsWith_iff]
  | cons c t ih =>
    simp [charsContains, Bool.or_eq_true, charsStartsWith_iff, ih, List.infix_cons_iff]

theorem charsEndsWith_iff (p s : List Char) : charsEndsWith p s = true ↔ p <:+ s := by
  simp [charsEndsWith, charsStartsWith_iff]

theorem sopsFileName_iff (name : String) : sopsFileName name = true ↔ SopsIndicator name := by
  simp [sopsFileName, SopsIndicator, Bool.or_eq_true, charsEndsWith_iff, charsContains_iff]

theorem entryExists_iff (entries : List (String × FsNode)) (n : String) :
    entryExists entries n = true ↔ ∃ p ∈ entries, p.1 = n := by
  simp [entryExists, List.any_eq_true, beq_iff_eq]

theorem sopsScan_eq_any (entries : List (String × FsNode)) :
    sopsScan entries = entries.any (fun p => isFile p.2 && sopsFileName p.1) := by
  induction entries with
  | nil => rfl
  | cons q rest ih =>
    obtain ⟨name, node⟩ := q
    simp only [sopsScan, List.any_cons, ih]
    cases isFile node && sopsFileName name <;> simp

theorem sopsScan_iff (entries : List (String × FsNode)) :
    sopsScan entries = true ↔ ∃ p ∈ entries, isFile p.2 = true ∧ sopsFileName p.1 = true := by
  rw [sopsScan_eq_any]
  simp [List.any_eq_true, Bool.and_eq_true]

theorem hexDigit_ne_nl (n : Nat) (h : n < 16) : toHexDigit n ≠ '\n' := by
  interval_cases n <;> decide

theorem escChar_no_nl (c : Char) : '\n' ∉ escChar c := by
  unfold escChar
  split_ifs with h1 h2 h3 h4 h5 h6 h7 h8
  · decide
  · decide
  · decide
  · decide
  · decide
  · decide
  · decide
  · have d1 : toHexDigit (c.toNat / 16) ≠ '\n' := hexDigit_ne_nl _ (by omega)
    have d2 : toHexDigit (c.toNat % 16) ≠ '\n' := hexDigit_ne_nl _ (by omega)
    simp only [List.mem_cons, List.not_mem_nil, or_false]
    rintro (h | h | h | h | h | h)
    · exact absurd h (by decide)
    · exact absurd h (by decide)
    · exact absurd h (by decide)
    · exact absurd h (by decide)
    · exact d1 h.symm
    · exact d2 h.symm
  · simp only [List.mem_singleton]
    exact fun h => h5 h.symm

theorem escapeChars_no_nl (s : String) : '\n' ∉ escapeChars s := by
  unfold escapeChars
  induction s.data with
  | nil => simp
  | cons c cs ih =>
    simp only [List.map_cons, List.flatten_cons, List.mem_append]
    rintro (h | h)
    · exact escChar_no_nl c h
    · exact ih h

theorem processStack_containers (pth nm : String) (fsn : FsNode) (st : Stack)
    (h : processStack pth nm fsn = some st) : st.containers = [] := by
  cases fsn with
  | file => simp [processStack] at h
  | dir rd es =>
    simp only [processStack, Option.some.injEq] at h
    rw [← h]

theorem processHost_shape (rp nm : String) (fsn : FsNode) (h : Host)
    (hh : processHost rp nm fsn = some h) :
    h.groups = [] ∧ ∀ st ∈ h.«stacks», st.containers = [] := by
  cases fsn with
  | file => simp [processHost] at hh
  | dir rd es =>
    cases rd with
    | false =>
      simp only [processHost, Option.some.injEq] at hh
      rw [← hh]
      refine ⟨rfl, ?_⟩
      intro st hst
      have hst2 : st ∈ ([] : List Stack) := hst
      simp at hst2
    | true =>
      simp only [processHost, Option.some.injEq] at hh
      rw [← hh]
      refine ⟨rfl, ?_⟩
      intro st hst
      have hst2 : st ∈ es.filterMap
          (fun p => processStack (rp ++ "/" ++ nm) p.1 p.2) := hst
      rw [List.mem_filterMap] at hst2
      obtain ⟨p, _, hps⟩ := hst2
      exact processStack_containers _ _ _ _ hps

/-! ### Claims -/

/-- Claim C3 (confirmed): for a readable stack directory, `get_inventory`
sets `sops = true` iff some regular file directly inside has a lower-cased
name ending in `.env.sops` or containing `.sops.`; the scan stops at the
first match, and the contents of nested subdirectories never affect it. -/
theorem C3_sops_flag (pth nm : String) (entries : List (String × FsNode)) (st : Stack)
    (h : processStack pth nm (.dir true entries) = some st) :
    (st.sops = true ↔ ∃ p ∈ entries, isFile p.2 = true ∧ SopsIndicator p.1)
    ∧ (∀ name node rest, isFile node = true → sopsFileName name = true →
        sopsScan ((name, node) :: rest) = true)
    ∧ (∀ pre post name rd es1 es2,
        sopsScan (pre ++ (name, FsNode.dir rd es1) :: post) =
          sopsScan (pre ++ (name, FsNode.dir rd es2) :: post)) := by
  have hs : st.sops = sopsScan entries := by
    simp only [processStack, Option.some.injEq] at h
    rw [← h]
    rfl
  refine ⟨?_, ?_, ?_⟩
  · rw [hs, sopsScan_iff]
    simp [sopsFileName_iff]
  · intro name node rest h1 h2
    simp [sopsScan, h1, h2]
  · intro pre post name rd es1 es2
    rw [sopsScan_eq_any, sopsScan_eq_any]
    simp [List.any_append, List.any_cons, isFile]

/-- Witness for C3 at a concrete stack directory holding one matching file. -/
theorem C3_witness :
    (({ name := "s", type := "script", path := "/r/h/s", sops := true
      , containers := [] } : Stack).sops = true ↔
      ∃ p ∈ [("app.sops.yaml", FsNode.file)], isFile p.2 = true ∧ SopsIndicator p.1) :=
  (C3_sops_flag "/r/h" "s" [("app.sops.yaml", FsNode.file)] _ rfl).1

/-- Claim C2 counterexample: a stack directory containing a *directory* (not a
file) named `docker-compose.yaml` holds no file by either compose-manifest
name, so the claim classifies it `script`; the code's `Path::exists` check
still classifies it `compose`. -/
theorem C2_counterexample :
    (get_inventory cfg0 (some (.dir true [("h",
        .dir true [("s", .dir true [("docker-compose.yaml", .dir true [])])])]))) =
      { hosts := [{ host := "h", groups := [], «stacks» :=
          [{ name := "s", type := "compose", path := "/r/h/s", sops := false
           , containers := [] }] }] }
    ∧ (∀ p ∈ [("docker-compose.yaml", FsNode.dir true [])], isFile p.2 = false)
    ∧ "compose" ≠ "script" := by
  refine ⟨rfl, by decide, by decide⟩

/-- Claim C2 as amended: the stack type is `compose` iff an entry of *any*
kind named exactly `docker-compose.yaml` or `docker-compose.tpl.yaml` exists
directly inside the stack directory (the code tests path existence, not file
kind), and `script` otherwise. -/
theorem C2_amended_classification (pth nm : String) (rd : Bool)
    (entries : List (String × FsNode)) (st : Stack)
    (h : processStack pth nm (.dir rd entries) = some st) :
    (st.type = "compose" ↔
      ∃ p ∈ entries, p.1 = "docker-compose.yaml" ∨ p.1 = "docker-compose.tpl.yaml")
    ∧ (st.type = "compose" ∨ st.type = "script") := by
  have key : (entryExists entries "docker-compose.yaml" ||
      entryExists entries "docker-compose.tpl.yaml") = true ↔
      ∃ p ∈ entries, p.1 = "docker-compose.yaml" ∨ p.1 = "docker-compose.tpl.yaml" := by
    simp [Bool.or_eq_true, entryExists_iff, and_or_left, exists_or]
  simp only [processStack, Option.some.injEq] at h
  cases hb : (entryExists entries "docker-compose.yaml" ||
      entryExists entries "docker-compose.tpl.yaml") with
  | false =>
    have ht : st.type = "script" := by rw [← h]; simp [hb]
    have hnex : ¬ ∃ p ∈ entries,
        p.1 = "docker-compose.yaml" ∨ p.1 = "docker-compose.tpl.yaml" := by
      rw [← key, hb]; simp
    refine ⟨⟨fun habs => ?_, fun hex => absurd hex hnex⟩, Or.inr ht⟩
    rw [ht] at habs
    exact absurd habs (by decide)
  | true =>
    have ht : st.type = "compose" := by rw [← h]; simp [hb]
    exact ⟨⟨fun _ => key.mp hb, fun _ => ht⟩, Or.inl ht⟩

/-- Witness for the amended C2 at a concrete stack directory holding a
templated compose manifest file. -/
theorem C2_amended_witness :
    (({ name := "s", type := "compose", path := "/r/h/s", sops := false,
        containers := [] } : Stack).type = "compose" ↔
      ∃ p ∈ [("docker-compose.tpl.yaml", FsNode.file)],
        p.1 = "docker-compose.yaml" ∨ p.1 = "docker-compose.tpl.yaml")
    ∧ (({ name := "s", type := "compose", path := "/r/h/s", sops := false,
          containers := [] } : Stack).type = "compose" ∨
        ({ name := "s", type := "compose", path := "/r/h/s", sops := false,
           containers := [] } : Stack).type = "script") :=
  C2_amended_classification "/r/h" "s" true [("docker-compose.tpl.yaml", FsNode.file)] _ rfl

/-- Claim C4 counterexample: a host directory whose listing fails is *not*
omitted from the inventory — it is returned with an empty stack list. -/
theorem C4_counterexample :
    (get_inventory cfg0 (some (.dir true [("hostA", .dir false [])]))).hosts =
      [{ host := "hostA", groups := [], «stacks» := [] }]
    ∧ (get_inventory cfg0 (some (.dir true [("hostA", .dir false [])]))).hosts ≠ [] := by
  exact ⟨rfl, by decide⟩

/-- Claim C4 as amended: `get_inventory` is total and never errors; a missing,
non-directory or unreadable scan root yields the empty inventory; a host
directory whose listing fails is kept with an empty stack list; non-directory
entries are skipped; a stack directory whose listing fails is kept with
`sops = false`. -/
theorem C4_amended_degradation (cfg : AppConfig) :
    get_inventory cfg none = { hosts := [] }
    ∧ get_inventory cfg (some .file) = { hosts := [] }
    ∧ (∀ es, get_inventory cfg (some (.dir false es)) = { hosts := [] })
    ∧ (∀ rp nm es, processHost rp nm (.dir false es) =
        some { host := nm, groups := [], «stacks» := [] })
    ∧ (∀ rp nm, processHost rp nm .file = none)
    ∧ (∀ hp nm, processStack hp nm .file = none)
    ∧ (∀ hp nm es, (processStack hp nm (.dir false es)).map Stack.sops = some false) :=
  ⟨rfl, rfl, fun _ => rfl, fun _ _ _ => rfl, fun _ _ => rfl, fun _ _ => rfl,
   fun _ _ _ => rfl⟩

/-- Claim C5 (confirmed): with a readable scan root, the returned hosts are,
in order, exactly the directory entries of the root, named by their base
names; non-directory entries contribute no host. -/
theorem C5_hosts_per_directory (cfg : AppConfig) (entries : List (String × FsNode)) :
    (get_inventory cfg (some (.dir true entries))).hosts.map Host.host =
      (entries.filter (fun p => !isFile p.2)).map Prod.fst := by
  have main : ∀ (l : List (String × FsNode)),
      (l.filterMap (fun p => processHost cfg.scan_root p.1 p.2)).map Host.host =
        (l.filter (fun p => !isFile p.2)).map Prod.fst := by
    intro l
    induction l with
    | nil => rfl
    | cons q rest ih =>
      obtain ⟨name, node⟩ := q
      cases node with
      | file => simpa [processHost, isFile] using ih
      | dir rd es => simpa [processHost, isFile] using ih
  exact main entries

/-- Claim C9 (confirmed): every host in any inventory has empty `groups`,
and every stack of every host has empty `containers`. -/
theorem C9_empty_containers_groups (cfg : AppConfig) (root : Option FsNode) (h : Host)
    (hh : h ∈ (get_inventory cfg root).hosts) :
    h.groups = [] ∧ ∀ st ∈ h.«stacks», st.containers = [] := by
  match root with
  | none => simp [get_inventory] at hh
  | some .file => simp [get_inventory] at hh
  | some (.dir false es) => simp [get_inventory] at hh
  | some (.dir true entries) =>
    simp only [get_inventory, List.mem_filterMap] at hh
    obtain ⟨p, _, hph⟩ := hh
    exact processHost_shape _ _ _ _ hph

/-- Witness for C9 on a concrete one-host, one-stack tree. -/
theorem C9_witness :
    ({ host := "h1", groups := [], «stacks» :=
        [{ name := "s1", type := "script", path := "/r/h1/s1", sops := false
         , containers := [] }] } : Host).groups = []
    ∧ ∀ st ∈ ({ host := "h1", groups := [], «stacks» :=
        [{ name := "s1", type := "script", path := "/r/h1/s1", sops := false
         , containers := [] }] } : Host).«stacks», st.containers = [] :=
  C9_empty_containers_groups cfg0
    (some (.dir true [("h1", .dir true [("s1", .dir true [])])])) _ (by decide)

/-- Claim C8 (confirmed): when the environment value is absent or unparsable
and the file is absent or unparsable, `Entitlements::load` succeeds with the
hardcoded Community default. -/
theorem C8_default_fallback (parseEnt : String → Option Entitlements)
    (envVal fileContents : Option String)
    (henv : envVal = none ∨ ∃ s, envVal = some s ∧ parseEnt s = none)
    (hfile : fileContents = none ∨ ∃ s, fileContents = some s ∧ parseEnt s = none) :
    Entitlements.load parseEnt envVal fileContents =
      .ok { edition := "Community", max_hosts := some 15, demo_stacks := some 3,
            features := { ci_api := true, wizards := true, history_days := 30 },
            org := none } := by
  have hf : Entitlements.loadFile parseEnt fileContents = Entitlements.default := by
    rcases hfile with rfl | ⟨s, rfl, hs⟩
    · rfl
    · simp [Entitlements.loadFile, hs]
  rcases henv with rfl | ⟨s, rfl, hs⟩
  · simp only [Entitlements.load, hf]
    rfl
  · simp only [Entitlements.load, hs, hf]
    rfl

/-- Witness for C8: unset environment variable, unreadable license file. -/
theorem C8_witness :
    Entitlements.load (fun _ => none) none none =
      .ok { edition := "Community", max_hosts := some 15, demo_stacks := some 3,
            features := { ci_api := true, wizards := true, history_days := 30 },
            org := none } :=
  C8_default_fallback (fun _ => none) none none (Or.inl rfl) (Or.inl rfl)

/-- Claim C1 — evidence for the code bug: with `features.ci_api = false` the
handler performs no entitlement check at all; it still answers 200 with the
full four-event NDJSON stream instead of an authorization failure with zero
events. -/
theorem C1_stream_not_gated :
    (ci_run "2026-01-01T00:00:00Z" cfg0
      { edition := "Community", max_hosts := some 15, demo_stacks := some 3,
        features := { ci_api := false, wizards := true, history_days := 30 },
        org := none }
      { mode := "deploy" }).status = 200
    ∧ (ci_run "2026-01-01T00:00:00Z" cfg0
      { edition := "Community", max_hosts := some 15, demo_stacks := some 3,
        features := { ci_api := false, wizards := true, history_days := 30 },
        org := none }
      { mode := "deploy" }).bodyLines.length = 4
    ∧ (ci_run "2026-01-01T00:00:00Z" cfg0
      { edition := "Community", max_hosts := some 15, demo_stacks := some 3,
        features := { ci_api := false, wizards := true, history_days := 30 },
        org := none }
      { mode := "deploy" }).bodyLines ≠ [] := by
  refine ⟨rfl, rfl, by decide⟩

/-- Claim C6 (confirmed): under a granted entitlement the event sequence is
non-empty, all events before the last are non-terminal, the last is terminal
and carries a summary, and the terminal level occurs exactly once. -/
theorem C6_terminal_event (now : String) (ents : Entitlements)
    (hgrant : ents.features.ci_api = true) :
    ciRunEvents now ents ≠ []
    ∧ (∀ e ∈ (ciRunEvents now ents).dropLast, isDone e = false)
    ∧ (∃ last, (ciRunEvents now ents).getLast? = some last ∧
        isDone last = true ∧ hasSummary last = true)
    ∧ (ciRunEvents now ents).countP isDone = 1 := by
  refine ⟨by simp [ciRunEvents], ?_, ⟨_, rfl, rfl, rfl⟩, rfl⟩
  intro e he
  have he3 : e ∈ [ Json.obj (.cons "ts" (.str now) (.cons "level" (.str "info")
      (.cons "msg" (.str "run started") (.cons "edition" (.str ents.edition) .nil))))
    , Json.obj (.cons "level" (.str "info") (.cons "msg" (.str "planning") .nil))
    , Json.obj (.cons "level" (.str "info")
        (.cons "msg" (.str "nothing to change") .nil)) ] := he
  simp only [List.mem_cons, List.not_mem_nil, or_false] at he3
  rcases he3 with rfl | rfl | rfl <;> rfl

/-- Witness for C6 at the default entitlements and a fixed timestamp. -/
theorem C6_witness :
    ciRunEvents "2026-01-01T00:00:00Z" Entitlements.default ≠ []
    ∧ (∀ e ∈ (ciRunEvents "2026-01-01T00:00:00Z" Entitlements.default).dropLast,
        isDone e = false)
    ∧ (∃ last, (ciRunEvents "2026-01-01T00:00:00Z" Entitlements.default).getLast? =
        some last ∧ isDone last = true ∧ hasSummary last = true)
    ∧ (ciRunEvents "2026-01-01T00:00:00Z" Entitlements.default).countP isDone = 1 :=
  C6_terminal_event "2026-01-01T00:00:00Z" Entitlements.default rfl

/-- Claim C7 (confirmed): the reference run emits exactly the four scripted
events in order — start event with timestamp and edition, planning, nothing
to change, and the zero-valued done summary — and each is serialized as a
single JSON object on its own newline-terminated line. -/
theorem C7_reference_sequence (now : String) (cfg : AppConfig)
    (ents : Entitlements) (req : CiRunRequest) :
    (ci_run now cfg ents req).bodyLines =
      (ciRunEvents now ents).map (fun v => String.mk (renderJson v ++ ['\n']))
    ∧ ciRunEvents now ents =
      [ .obj (.cons "ts" (.str now) (.cons "level" (.str "info")
          (.cons "msg" (.str "run started") (.cons "edition" (.str ents.edition) .nil))))
      , .obj (.cons "level" (.str "info") (.cons "msg" (.str "planning") .nil))
      , .obj (.cons "level" (.str "info") (.cons "msg" (.str "nothing to change") .nil))
      , .obj (.cons "level" (.str "done") (.cons "summary"
          (.obj (.cons "hosts" (.nat 0) (.cons "stacks" (.nat 0)
            (.cons "changed" (.nat 0) (.cons "failed" (.nat 0) .nil))))) .nil)) ]
    ∧ (∀ v ∈ ciRunEvents now ents, '\n' ∉ renderJson v)
    ∧ (∀ l ∈ (ci_run now cfg ents req).bodyLines, l.data.getLast? = some '\n') := by
  refine ⟨rfl, rfl, ?_, ?_⟩
  · intro v hv
    simp only [ciRunEvents, List.mem_cons, List.not_mem_nil, or_false] at hv
    rcases hv with rfl | rfl | rfl | rfl <;>
      · simp only [renderJson, renderFields]
        simp [List.mem_append, List.mem_cons, escapeChars_no_nl,
          show '\n' ∉ (Nat.repr 0).data by decide]
  · intro l hl
    simp only [ci_run, List.mem_map] at hl
    obtain ⟨v, _, rfl⟩ := hl
    show (renderJson v ++ ['\n']).getLast? = some '\n'
    simp

/-- Claim C10 (confirmed): for two runs under granted entitlements with the
same edition, the outputs agree except for the `ts` field of the first event;
the request mode and every entitlement field other than the edition have no
influence. -/
theorem C10_edition_determines_output (ts1 ts2 : String) (e1 e2 : Entitlements)
    (cfg1 cfg2 : AppConfig) (r1 r2 : CiRunRequest)
    (h1 : e1.features.ci_api = true) (h2 : e2.features.ci_api = true)
    (hed : e1.edition = e2.edition) :
    ci_run ts1 cfg1 e1 r1 = ci_run ts1 cfg2 e2 r2
    ∧ (ciRunEvents ts1 e1).tail = (ciRunEvents ts2 e2).tail
    ∧ (ciRunEvents ts1 e1).map dropTs = (ciRunEvents ts2 e2).map dropTs := by
  refine ⟨?_, rfl, ?_⟩
  · simp only [ci_run, ciRunEvents]
    rw [hed]
  · simp only [ciRunEvents]
    rw [hed]
    rfl

/-- Witness for C10: two timestamps, two modes, and entitlements agreeing
only on the edition. -/
theorem C10_witness :
    ci_run "2026-01-01T00:00:00Z" cfg0 Entitlements.default { mode := "deploy" } =
      ci_run "2026-01-01T00:00:00Z" cfg0
        { edition := "Community", max_hosts := none, demo_stacks := none,
          features := { ci_api := true, wizards := false, history_days := 365 },
          org := some "acme" }
        { mode := "check" }
    ∧ (ciRunEvents "2026-01-01T00:00:00Z" Entitlements.default).tail =
      (ciRunEvents "2026-02-02T00:00:00Z"
        { edition := "Community", max_hosts := none, demo_stacks := none,
          features := { ci_api := true, wizards := false, history_days := 365 },
          org := some "acme" }).tail
    ∧ (ciRunEvents "2026-01-01T00:00:00Z" Entitlements.default).map dropTs =
      (ciRunEvents "2026-02-02T00:00:00Z"
        { edition := "Community", max_hosts := none, demo_stacks := none,
          features := { ci_api := true, wizards := false, history_days := 365 },
          org := some "acme" }).map dropTs :=
  C10_edition_determines_output "2026-01-01T00:00:00Z" "2026-02-02T00:00:00Z"
    Entitlements.default
    { edition := "Community", max_hosts := none, demo_stacks := none,
      features := { ci_api := true, wizards := false, history_days := 365 },
      org := some "acme" }
    cfg0 cfg0 { mode := "deploy" } { mode := "check" } rfl rfl rfl

end DDUI
